import Mathlib

/-
Verification of the VentureIQ multi-agent orchestration and synthesis engine
(src/service/multiAgentOrchestrator.jss and src/service/agents/*).

Shallow embedding conventions:
* JavaScript numbers are modelled as ℚ.  Where NaN can flow (the agents'
  `parseFloat`-based parsers applied to arbitrary strings) values are
  modelled as `Option ℚ` with `none` standing for NaN; `Math.min`, `Math.max`,
  `Math.round`, and the arithmetic operators propagate NaN exactly as in JS,
  and comparisons with NaN are false.
* `Math.round` rounds half toward +∞: `jsRound q = ⌊q + 1/2⌋`.
* Strings are Lean `String`s; `toLowerCase` is modelled on the ASCII range
  (the only case-mapped characters the agents compare against are ASCII),
  and `String.prototype.includes` is `hasSubstr` on character lists.
* Each agent's `analyze` is total: the agent catches every internal error and
  returns `getFallbackAnalysis` (mirrored by an `Env` failure flag standing
  for "some step of the try-block threw").  LLM responses and other external
  data are supplied by the same `Env` record.
* Task-specific detail payload fields are omitted from outcome records: the
  spec declares them opaque to the Orchestrator/Synthesizer; the embedded
  records keep the common fields (score / riskScore, confidence, insights)
  that the orchestrator and the claims read.
-/

/-! ### JavaScript numeric primitives -/

/-- JS `Math.round`: round half toward +∞. -/
def jsRound (q : ℚ) : ℚ := (⌊q + 1/2⌋ : ℤ)

/-- `Math.round(x * 10) / 10` — the one-decimal rounding used throughout. -/
def round1 (q : ℚ) : ℚ := jsRound (q * 10) / 10

/-- JS `x || d` for numbers already known not to be NaN: `0` is falsy. -/
def jsOrQ (x d : ℚ) : ℚ := if x = 0 then d else x

/-- JS number with NaN: `none` is NaN. -/
abbrev JSNum := Option ℚ

def jadd : JSNum → JSNum → JSNum
  | some a, some b => some (a + b)
  | _, _ => none

def jsub : JSNum → JSNum → JSNum
  | some a, some b => some (a - b)
  | _, _ => none

def jmul : JSNum → JSNum → JSNum
  | some a, some b => some (a * b)
  | _, _ => none

/-- JS division.  Every division in the embedded code has a nonzero constant
or a guarded-nonzero denominator, so `none` only ever stands for NaN. -/
def jdiv : JSNum → JSNum → JSNum
  | some a, some b => if b = 0 then none else some (a / b)
  | _, _ => none

/-- JS `Math.min` returns NaN if either argument is NaN. -/
def jmin : JSNum → JSNum → JSNum
  | some a, some b => some (min a b)
  | _, _ => none

/-- JS `Math.max` returns NaN if either argument is NaN. -/
def jmax : JSNum → JSNum → JSNum
  | some a, some b => some (max a b)
  | _, _ => none

/-- JS `Math.round` on a possibly-NaN value. -/
def jroundN (x : JSNum) : JSNum := x.map jsRound

/-- JS `a > b`: false when either side is NaN. -/
def jgt (a b : JSNum) : Bool :=
  match a, b with
  | some x, some y => decide (y < x)
  | _, _ => false

/-- JS `a < b`: false when either side is NaN. -/
def jlt (a b : JSNum) : Bool :=
  match a, b with
  | some x, some y => decide (x < y)
  | _, _ => false

/-- JS truthiness of a number: `0`, `NaN` and `undefined` are falsy. -/
def truthyNum (x : JSNum) : Bool :=
  match x with
  | none => false
  | some q => decide (q ≠ 0)

/-! ### String primitives -/

/-- ASCII-range `toLowerCase` (the agents only compare against ASCII). -/
def asciiLower (c : Char) : Char :=
  if 'A' ≤ c ∧ c ≤ 'Z' then Char.ofNat (c.toNat + 32) else c

/-- Decimal value of a digit list (the number an already-numeric string denotes). -/
def natOfDigits (ds : List Char) : ℕ := ds.foldl (fun n c => 10 * n + (c.toNat - 48)) 0

/-- JS `parseFloat` on a string of digits and dots: leading integer part,
then an optional fractional part after the first dot; NaN (`none`) when no
digit is found in either position. -/
def parseFloatCore (cs : List Char) : JSNum :=
  let ip := cs.takeWhile Char.isDigit
  let r1 := cs.dropWhile Char.isDigit
  let fp := match r1 with
    | c :: r2 => if c = '.' then r2.takeWhile Char.isDigit else []
    | [] => []
  if ip = [] ∧ fp = [] then none
  else some ((natOfDigits ip : ℚ) + (natOfDigits fp : ℚ) / 10 ^ fp.length)

/-- JS `parseFloat` on an arbitrary string: skip blanks, optional sign, then
the leading decimal (exponent notation does not occur in the parsed fields). -/
def jsParseFloat (s : String) : JSNum :=
  let cs := s.toList.dropWhile (fun c => c == ' ')
  match cs with
  | '-' :: rest => (parseFloatCore rest).map (fun q => -q)
  | '+' :: rest => parseFloatCore rest
  | _ => parseFloatCore cs

/-- JS `String.prototype.includes` on char lists. -/
def hasSubstr : List Char → List Char → Bool
  | _, [] => true
  | [], _ :: _ => false
  | c :: t, s => s.isPrefixOf (c :: t) || hasSubstr t s

/-- JS `String.prototype.replace` with a string pattern: remove the first
occurrence of character `p`. -/
def removeFirst (p : Char) : List Char → List Char
  | [] => []
  | c :: t => if c = p then t else c :: removeFirst p t

/-! ### Shared numeric parsers (§4.5)

`RiskAssessmentAgent.parseNumeric` (identical body in
`PortfolioImpactAgent.parseNumeric` and
`MarketResearchAgent.parseFinancialValue`):
strip everything but digits and dots, `parseFloat(cleaned) || 0`, then a
case-insensitive suffix multiplier for `cr` (×10⁷), `l` (×10⁵), `k` (×10³).
There is no `m` or `b` multiplier in these parsers. -/

def riskParseNumeric (v : Option String) : ℚ :=
  match v with
  | none => 0
  | some s =>
    if s = "" then 0
    else
      let cleaned := s.toList.filter (fun c => c.isDigit || c == '.')
      let number := (parseFloatCore cleaned).getD 0
      let lower := s.toList.map asciiLower
      if hasSubstr lower ['c', 'r'] then number * 10000000
      else if hasSubstr lower ['l'] then number * 100000
      else if hasSubstr lower ['k'] then number * 1000
      else number

/-- `MarketResearchAgent.parseFinancialValue` — same body as
`riskParseNumeric`. -/
def parseFinancialValue (v : Option String) : ℚ :=
  match v with
  | none => 0
  | some s =>
    if s = "" then 0
    else
      let cleaned := s.toList.filter (fun c => c.isDigit || c == '.')
      let number := (parseFloatCore cleaned).getD 0
      let lower := s.toList.map asciiLower
      if hasSubstr lower ['c', 'r'] then number * 10000000
      else if hasSubstr lower ['l'] then number * 100000
      else if hasSubstr lower ['k'] then number * 1000
      else number

/-- `DocumentAgent.parseNumericValue`: suffixes `b` (×10⁶), `m` (×10³),
`k` (×1 — the value is returned unscaled). -/
def docParseNumericValue (v : Option String) : ℚ :=
  match v with
  | none => 0
  | some s =>
    if s = "" then 0
    else
      let cleaned := s.toList.filter (fun c => c.isDigit || c == '.')
      let number := (parseFloatCore cleaned).getD 0
      let lower := s.toList.map asciiLower
      if hasSubstr lower ['b'] then number * 1000000
      else if hasSubstr lower ['m'] then number * 1000
      else if hasSubstr lower ['k'] then number
      else number

/-- `RiskAssessmentAgent.parseGrowthRate` (same body as
`MarketResearchAgent.parsePercentage`): `parseFloat(growth.replace('%','')) / 100`
with no NaN guard — a non-numeric, non-empty string yields NaN. -/
def parseGrowthRate (v : Option String) : JSNum :=
  match v with
  | none => some 0
  | some s =>
    if s = "" then some 0
    else jdiv (jsParseFloat (String.mk (removeFirst '%' s.toList))) (some 100)

/-- `MarketResearchAgent.parsePercentage` — same body as `parseGrowthRate`. -/
def parsePercentage (v : Option String) : JSNum :=
  match v with
  | none => some 0
  | some s =>
    if s = "" then some 0
    else jdiv (jsParseFloat (String.mk (removeFirst '%' s.toList))) (some 100)

/-- `parseInt(x?.replace(/[^\d]/g, '')) || 0` as used for teamSize and runway. -/
def parseIntDigits (v : Option String) : ℚ :=
  match v with
  | none => 0
  | some s =>
    let ds := s.toList.filter Char.isDigit
    if ds = [] then 0 else (natOfDigits ds : ℚ)

/-! ### Synthesizer data model and algorithms
(`multiAgentOrchestrator.jss`: `synthesizeResults`, `calculateInvestmentScore`,
`extractKeyInsights`, `generateRecommendation`). -/

/-- A typed insight; the free-text `insight`/`implication` strings are payload
opaque to every claim and are omitted. `impact` is the impact rank. -/
structure Insight where
  itype : String
  impact : ℚ
deriving DecidableEq

/-- The common fields of a per-task result that the orchestrator and
synthesizer read. For the risk task, `score` is its `riskScore` field. -/
structure AnalysisOutcome where
  score : ℚ
  confidence : ℚ
  insights : List Insight

/-- The joined results record handed to `synthesizeResults`. -/
structure AgentResults where
  market : AnalysisOutcome
  risk : AnalysisOutcome
  competitive : AnalysisOutcome
  portfolio : AnalysisOutcome

/-- `calculateInvestmentScore`: weights market 0.25 / risk 0.30 /
competitive 0.20 / portfolio 0.25, risk score inverted as `10 - riskScore`,
falsy scores defaulted (`|| 7`, `|| 5`, `|| 6`, `|| 7`), and the weighted sum
rounded to one decimal. -/
def calculateInvestmentScore (r : AgentResults) : ℚ :=
  round1 (0 + jsOrQ r.market.score 7 * 0.25 + (10 - jsOrQ r.risk.score 5) * 0.30
    + jsOrQ r.competitive.score 6 * 0.20 + jsOrQ r.portfolio.score 7 * 0.25)

/-- The weighted sum exactly as the spec sentence states it (no rounding, no
falsy-defaulting): Σ(outcome.score × fixed_weight), risk inverted. -/
def specWeightedScore (r : AgentResults) : ℚ :=
  r.market.score * 0.25 + (10 - r.risk.score) * 0.30
    + r.competitive.score * 0.20 + r.portfolio.score * 0.25

inductive Decision
  | STRONG_BUY
  | PROCEED_WITH_CAUTION
  | PASS
deriving DecidableEq

structure Recommendation where
  decision : Decision
  confidence : String
  reasoning : String

/-- The fixed score-to-tier thresholds of `generateRecommendation`. -/
def recommendationTier (score : ℚ) : Decision :=
  if score ≥ 8 then Decision.STRONG_BUY
  else if score ≥ 6 then Decision.PROCEED_WITH_CAUTION
  else Decision.PASS

/-- `generateRecommendation`: recomputes the investment score and branches on
the fixed thresholds. -/
def generateRecommendation (r : AgentResults) : Recommendation :=
  let score := calculateInvestmentScore r
  if score ≥ 8 then
    ⟨Decision.STRONG_BUY, "High",
      "Multiple agents confirm strong investment opportunity with minimal risks"⟩
  else if score ≥ 6 then
    ⟨Decision.PROCEED_WITH_CAUTION, "Medium",
      "Mixed signals from agents suggest thorough due diligence required"⟩
  else
    ⟨Decision.PASS, "High",
      "Multiple risk factors identified across agent analysis"⟩

/-- The comparator of `insights.sort((a, b) => (b.impact || 0) - (a.impact || 0))`:
descending by impact (a stable sort, as JS `Array.prototype.sort` is). -/
def insightLE (a b : Insight) : Bool := decide (b.impact ≤ a.impact)

/-- `extractKeyInsights`: concatenate the four insight lists in agent order,
stable-sort descending by impact, keep the first 5. -/
def extractKeyInsights (r : AgentResults) : List Insight :=
  ((r.market.insights ++ r.risk.insights ++ r.competitive.insights
      ++ r.portfolio.insights).mergeSort insightLE).take 5

/-- The synthesized report fields the claims read (executive summary, risk
list and next steps are deterministic payload not referenced by any claim). -/
structure SynthesizedReport where
  investmentScore : ℚ
  keyInsights : List Insight
  recommendation : Recommendation

/-- `synthesizeResults`. -/
def synthesizeResults (r : AgentResults) : SynthesizedReport :=
  ⟨calculateInvestmentScore r, extractKeyInsights r, generateRecommendation r⟩

/-! ### `MarketResearchAgent.calculatePercentile` -/

/-- `calculatePercentile(value, benchmark)`: `!value || !benchmark` (zero,
NaN or absent) returns the neutral 50th percentile before any division;
otherwise a fixed ratio table. -/
def calculatePercentile (value benchmark : JSNum) : ℚ :=
  if !(truthyNum value) || !(truthyNum benchmark) then 50
  else
    let ratio := value.getD 0 / benchmark.getD 0
    if ratio ≥ 2 then 95
    else if ratio ≥ 1.5 then 85
    else if ratio ≥ 1.2 then 75
    else if ratio ≥ 1 then 60
    else if ratio ≥ 0.8 then 40
    else if ratio ≥ 0.6 then 25
    else 15

/-! ### CompanyRecord (§3) — free-form string fields, every field optional -/

structure CompanyRecord where
  companyName : Option String
  industry : Option String
  revenue : Option String
  arr : Option String
  burnRate : Option String
  runway : Option String
  teamSize : Option String
  growthRate : Option String
  marketSize : Option String
  customers : Option String

/-- The entirely empty CompanyRecord (all fields absent). -/
def emptyRecord : CompanyRecord :=
  ⟨none, none, none, none, none, none, none, none, none, none⟩

/-! ### MarketResearchAgent -/

/-- LLM industry classification result (`classifyIndustry`). -/
structure IndustryData where
  primaryIndustry : String
  secondaryIndustry : String
  stage : String
  businessModel : String
  confidence : String

/-- `classifyIndustry`'s fallback classification when the LLM call fails. -/
def defaultIndustryData : IndustryData :=
  ⟨"Technology", "SaaS", "seed", "B2B", "medium"⟩

/-- A static benchmark table (absent fields are `none`). -/
structure Benchmarks where
  avgMRR : JSNum
  avgARR : JSNum
  avgGrowthRate : JSNum
  avgTeamSize : JSNum
  avgCAC : JSNum
  avgLTV : JSNum
  avgBurnRate : JSNum
  avgRunway : JSNum
  avgGrossMargin : JSNum
  avgLTVCACRatio : JSNum

def foodTechBenchmarks : Benchmarks :=
  ⟨some 1400000, none, some 0.20, some 12, some 350, some 1000,
    some 80000, some 10, some 0.60, none⟩

def dataAnalyticsBenchmarks : Benchmarks :=
  ⟨none, some 400000, some 0.30, some 10, none, none,
    some 1200000, some 8, none, some 8⟩

/-- `generalBenchmarks.seedStage` — note: no `avgGrowthRate` key. -/
def seedStageBenchmarks : Benchmarks :=
  ⟨none, some 100000, none, some 8, none, none, some 500000, some 12, none, none⟩

/-- JS `a || b` on possibly-absent strings (empty string is falsy). -/
def jsOrStr (a b : Option String) : Option String :=
  match a with
  | some s => if s = "" then b else some s
  | none => b

/-- JS `a || b` on possibly-absent numbers. -/
def jsOrN (a b : JSNum) : JSNum := if truthyNum a then a else b

def lowerList (s : String) : List Char := s.toList.map asciiLower

structure CompanyMetrics where
  revenue : ℚ
  teamSize : ℚ
  growthRate : JSNum
  burnRate : ℚ
  runway : ℚ

/-- The parsed company metrics of `performBenchmarking`. -/
def companyMetricsOf (rec : CompanyRecord) : CompanyMetrics :=
  ⟨parseFinancialValue (jsOrStr rec.revenue rec.arr),
    parseIntDigits rec.teamSize,
    parsePercentage rec.growthRate,
    parseFinancialValue rec.burnRate,
    parseIntDigits rec.runway⟩

structure Rankings where
  revenue : ℚ
  teamSize : ℚ
  growthRate : ℚ
  efficiency : ℚ

/-- `calculateEfficiencyScore`. -/
def calculateEfficiencyScore (m : CompanyMetrics) : ℚ :=
  let revenuePerEmployee := m.revenue / max m.teamSize 1
  let efficiency : ℚ := if m.runway > 12 then 80 else if m.runway > 6 then 60 else 40
  min 95 (efficiency + if revenuePerEmployee > 100000 then 20 else 0)

/-- `determineMarketPosition`: average of the four percentile rankings. -/
def determineMarketPosition (rk : Rankings) : String :=
  let avgRanking := (rk.revenue + rk.teamSize + rk.growthRate + rk.efficiency) / 4
  if avgRanking ≥ 80 then "Leader"
  else if avgRanking ≥ 60 then "Strong Performer"
  else if avgRanking ≥ 40 then "Average"
  else "Below Average"

structure BenchmarkAnalysis where
  relevantBenchmarks : Benchmarks
  companyMetrics : CompanyMetrics
  rankings : Rankings
  peerCount : ℕ
  industryPosition : String

/-- `performBenchmarking`: benchmark-table selection by industry substring,
metric parsing, and percentile rankings. -/
def performBenchmarking (rec : CompanyRecord) (ind : IndustryData) : BenchmarkAnalysis :=
  let il := lowerList ind.primaryIndustry
  let foodish := hasSubstr il ['f', 'o', 'o', 'd'] || hasSubstr il ['f', 'm', 'c', 'g']
  let dataish := hasSubstr il ['d', 'a', 't', 'a'] || hasSubstr il ['a', 'i']
    || hasSubstr il ['a', 'n', 'a', 'l', 'y', 't', 'i', 'c', 's']
  let bench := if foodish then foodTechBenchmarks
    else if dataish then dataAnalyticsBenchmarks else seedStageBenchmarks
  let peers : ℕ := if foodish then 1 else if dataish then 1 else 0
  let m := companyMetricsOf rec
  let rk : Rankings :=
    ⟨calculatePercentile (some m.revenue) (jsOrN bench.avgMRR bench.avgARR),
      calculatePercentile (some m.teamSize) bench.avgTeamSize,
      calculatePercentile m.growthRate bench.avgGrowthRate,
      calculateEfficiencyScore m⟩
  ⟨bench, m, rk, peers, determineMarketPosition rk⟩

/-- The `credibility` field of `validateMarketSize`. -/
def validateCredibility (rec : CompanyRecord) (ind : IndustryData) : String :=
  let il := lowerList ind.primaryIndustry
  if hasSubstr il ['f', 'o', 'o', 'd'] then
    match rec.marketSize with
    | some s => if hasSubstr s.toList ['5', '0', 'B'] then "Reasonable" else "Conservative"
    | none => "Conservative"
  else if hasSubstr il ['d', 'a', 't', 'a'] then "Credible"
  else "Unknown"

/-- `calculateMarketScore`: weighted rankings/credibility/position score,
rounded to one decimal.  (The source compares `overallPosition` against
`"Strong"` although `determineMarketPosition` produces `"Strong Performer"`;
the comparison is embedded as written.) -/
def calculateMarketScore (rk : Rankings) (credibility position : String) : ℚ :=
  let revenue := rk.revenue / 10
  let growth := rk.growthRate / 10
  let pos : ℚ := if position = "Leader" then 9 else if position = "Strong" then 7 else 5
  let mkt : ℚ := if credibility = "Credible" then 8 else 6
  round1 (0 + revenue * 0.25 + growth * 0.30 + pos * 0.20 + mkt * 0.25)

/-- `MarketResearchAgent.calculateConfidence`. -/
def calculateMarketConfidence (ind : IndustryData) (peerCount : ℕ) : ℚ :=
  min 95 (70 + (if ind.confidence = "high" then 20 else 0)
    + (if peerCount > 0 then 10 else 0))

/-- `generateMarketInsights` (insight payload text omitted; guards and impact
ranks as in the source). -/
def generateMarketInsights (ba : BenchmarkAnalysis) : List Insight :=
  let l1 := if ba.rankings.revenue > 75 then [Insight.mk "market-position" 9] else []
  let l2 := if jgt ba.companyMetrics.growthRate (some 0.20) then [Insight.mk "growth" 8] else []
  let l3 := if ba.rankings.efficiency > 60 then [Insight.mk "efficiency" 7] else []
  (l1 ++ l2 ++ l3 ++ [Insight.mk "opportunity" 6]).mergeSort insightLE

/-- `MarketResearchAgent.getFallbackAnalysis`: score 5.0, confidence 50,
empty insight list. -/
def marketGetFallbackAnalysis : AnalysisOutcome := ⟨5, 50, []⟩

/-- External nondeterminism: top-level try/catch outcomes of the four agents
(`*Fail` flags: some step of the agent's try block threw) and the
LLM-derived intermediate analysis data the agents consume. -/
structure Env where
  marketFail : Bool
  riskFail : Bool
  competitiveFail : Bool
  portfolioFail : Bool
  industry : Option IndustryData
  diffStrength : String
  currentPosition : String
  uniqueDifferentiators : ℕ
  competitiveInsights : List Insight
  expectedValue : ℚ
  sharpeRatio : ℚ
  portfolioInsights : List Insight

/-- `MarketResearchAgent.analyze`: the whole body is wrapped in try/catch;
on any internal error the fallback outcome is returned. -/
def marketAnalyze (env : Env) (rec : CompanyRecord) : AnalysisOutcome :=
  if env.marketFail then marketGetFallbackAnalysis
  else
    let ind := env.industry.getD defaultIndustryData
    let ba := performBenchmarking rec ind
    ⟨calculateMarketScore ba.rankings (validateCredibility rec ind) ba.industryPosition,
      calculateMarketConfidence ind ba.peerCount,
      generateMarketInsights ba⟩

/-! ### RiskAssessmentAgent -/

/-- The risk agent's outcome: its score field is named `riskScore`, and it can
be NaN (see `parseGrowthRate`). -/
structure RiskOutcome where
  riskScore : JSNum
  confidence : ℚ
  insights : List Insight

/-- `calculateUnitEconomicsScore`. -/
def calculateUnitEconomicsScore (rec : CompanyRecord) : ℚ :=
  let revenue := riskParseNumeric rec.revenue
  let customers := riskParseNumeric rec.customers
  if revenue > 0 ∧ customers > 0 then (if revenue / customers > 100 then 0.8 else 0.4)
  else 0.5

/-- `engineerFeatures`: raw record fields to 0–1-scale ML features. -/
structure RiskFeatures where
  revenue_growth_rate : JSNum
  burn_efficiency : JSNum
  team_experience : JSNum
  market_timing : JSNum
  unit_economics : JSNum
  runway_months : JSNum
  customer_traction : JSNum

def engineerFeatures (rec : CompanyRecord) : RiskFeatures :=
  let revenue := riskParseNumeric rec.revenue
  let growth := parseGrowthRate rec.growthRate
  let teamSize := parseIntDigits rec.teamSize
  let runway := parseIntDigits rec.runway
  let burn := riskParseNumeric rec.burnRate
  ⟨jmin (some 1) (jdiv growth (some 0.5)),
    if revenue > 0 ∧ burn > 0 then jmin (some 1) (some (revenue / burn)) else some 0.5,
    some (min 1 (teamSize / 20)),
    some 0.7,
    some (calculateUnitEconomicsScore rec),
    some (min 1 (runway / 24)),
    if revenue > 100000 then some 0.8 else some 0.4⟩

/-- The weighted feature sum of `predictSuccessProbability` (weights in the
`mlModel` key order; every feature is defined, so every term is added). -/
def probabilityScoreOf (f : RiskFeatures) : JSNum :=
  jadd (jadd (jadd (jadd (jadd (jadd (jadd (some 0)
    (jmul f.revenue_growth_rate (some 0.25)))
    (jmul f.burn_efficiency (some 0.20)))
    (jmul f.team_experience (some 0.15)))
    (jmul f.market_timing (some 0.15)))
    (jmul f.unit_economics (some 0.10)))
    (jmul f.runway_months (some 0.10)))
    (jmul f.customer_traction (some 0.05))

/-- `successPrediction.probability`:
`Math.round(Math.max(0.1, Math.min(0.9, probabilityScore)) * 100)`. -/
def predictProbability (rec : CompanyRecord) : JSNum :=
  jroundN (jmul (jmax (some 0.1) (jmin (some 0.9)
    (probabilityScoreOf (engineerFeatures rec)))) (some 100))

structure RedFlag where
  rtype : String
  severity : String

/-- `detectRedFlags` (flag payload text omitted; types/severities and guards
as in the source; `marketSize.includes` is case-sensitive there). -/
def detectRedFlags (rec : CompanyRecord) : List RedFlag :=
  let runway := parseIntDigits rec.runway
  let revenue := riskParseNumeric rec.revenue
  let burn := riskParseNumeric rec.burnRate
  let growth := parseGrowthRate rec.growthRate
  let teamSize := parseIntDigits rec.teamSize
  (if runway < 6 then [RedFlag.mk "Financial" "Critical"] else [])
    ++ (if burn > revenue * 5 ∧ revenue > 0 then [RedFlag.mk "Financial" "High"] else [])
    ++ (if jgt growth (some 0.5) then [RedFlag.mk "Growth" "Medium"] else [])
    ++ (if teamSize < 3 then [RedFlag.mk "Team" "Medium"] else [])
    ++ (match rec.marketSize with
        | some s =>
          if hasSubstr s.toList ['T']
              || hasSubstr s.toList ['t', 'r', 'i', 'l', 'l', 'i', 'o', 'n'] then
            [RedFlag.mk "Market" "Low"]
          else []
        | none => [])

def countSeverity (flags : List RedFlag) (sev : String) : ℕ :=
  (flags.filter (fun f => f.severity == sev)).length

/-- `calculateFinalRiskScore`: `10 - probability/10`, red-flag adjustment,
one-decimal rounding, clamped into [1,10] by `Math.max(1, Math.min(10, ·))`
— all of which propagate NaN. -/
def calculateFinalRiskScore (probability : JSNum) (flags : List RedFlag) : JSNum :=
  let r0 := jsub (some 10) (jdiv probability (some 10))
  let c : ℚ := countSeverity flags "Critical"
  let h : ℚ := countSeverity flags "High"
  let r1 := jadd r0 (some (c * 1.5 + h * 1))
  jmax (some 1) (jmin (some 10) (jdiv (jroundN (jmul r1 (some 10))) (some 10)))

/-- `generateRiskInsights` (payload text omitted; guards and impacts as in
the source). -/
def generateRiskInsights (probability : JSNum) (flags : List RedFlag) : List Insight :=
  let i1 := [Insight.mk "prediction" (if jgt probability (some 70) then 8 else 6)]
  let i2 := if flags.length > 0 then
      [Insight.mk "warning" (if countSeverity flags "Critical" > 0 then 9 else 5)]
    else []
  (i1 ++ i2 ++ [Insight.mk "risk-profile" 6]).mergeSort insightLE

/-- `RiskAssessmentAgent.getFallbackAnalysis`: riskScore 5.0, confidence 60,
one generic insight of type `fallback`. -/
def riskGetFallbackAnalysis : RiskOutcome := ⟨some 5, 60, [Insight.mk "fallback" 5]⟩

/-- `RiskAssessmentAgent.analyze`: try/catch around the whole body;
`calculateConfidence` returns the constant 85. -/
def riskAnalyze (env : Env) (rec : CompanyRecord) : RiskOutcome :=
  if env.riskFail then riskGetFallbackAnalysis
  else
    let probability := predictProbability rec
    let flags := detectRedFlags rec
    ⟨calculateFinalRiskScore probability flags, 85,
      generateRiskInsights probability flags⟩

/-! ### CompetitiveIntelligenceAgent -/

/-- `calculateCompetitiveScore`: base 5, differentiation and position bonuses,
up to 2 points for unique differentiators, clamped into [1,10].  Its inputs
derive from LLM-driven competitor intelligence, supplied through `Env`. -/
def calculateCompetitiveScore (diffStrength currentPosition : String)
    (uniqueCount : ℕ) : ℚ :=
  let s1 : ℚ := 5 + (if diffStrength = "Strong" then 2
    else if diffStrength = "Medium" then 1 else 0)
  let s2 := s1 + (if hasSubstr currentPosition.toList ['L', 'e', 'a', 'd', 'e', 'r'] then 2
    else if hasSubstr currentPosition.toList
        ['C', 'h', 'a', 'l', 'l', 'e', 'n', 'g', 'e', 'r'] then 1 else 0)
  let s3 := s2 + min 2 ((uniqueCount : ℚ) * 0.5)
  max 1 (min 10 s3)

/-- `CompetitiveIntelligenceAgent.getFallbackAnalysis`: score 5.0,
confidence 60, one generic insight of type `fallback`. -/
def competitiveGetFallbackAnalysis : AnalysisOutcome := ⟨5, 60, [Insight.mk "fallback" 5]⟩

/-- `CompetitiveIntelligenceAgent.analyze`: try/catch around the whole body;
`calculateConfidence` returns the constant 80. -/
def competitiveAnalyze (env : Env) (rec : CompanyRecord) : AnalysisOutcome :=
  if env.competitiveFail then competitiveGetFallbackAnalysis
  else
    ⟨calculateCompetitiveScore env.diffStrength env.currentPosition env.uniqueDifferentiators,
      80, env.competitiveInsights⟩

/-! ### PortfolioImpactAgent -/

/-- `calculatePortfolioScore`: base 5, return-potential and Sharpe-ratio
bonuses, clamped into [1,10].  Its inputs derive from the simulated return
projections, supplied through `Env`. -/
def calculatePortfolioScore (expectedValue sharpeRatio : ℚ) : ℚ :=
  let s1 : ℚ := 5 + (if expectedValue > 50000000 then 3
    else if expectedValue > 30000000 then 2
    else if expectedValue > 10000000 then 1 else 0)
  let s2 := s1 + (if sharpeRatio > 1.5 then 2 else if sharpeRatio > 1.0 then 1 else 0)
  max 1 (min 10 s2)

/-- `PortfolioImpactAgent.getFallbackAnalysis`: score 5.0, confidence 60,
one generic insight of type `fallback`. -/
def portfolioGetFallbackAnalysis : AnalysisOutcome := ⟨5, 60, [Insight.mk "fallback" 5]⟩

/-- `PortfolioImpactAgent.analyze`: try/catch around the whole body;
`calculateConfidence` returns the constant 85. -/
def portfolioAnalyze (env : Env) (rec : CompanyRecord) : AnalysisOutcome :=
  if env.portfolioFail then portfolioGetFallbackAnalysis
  else
    ⟨calculatePortfolioScore env.expectedValue env.sharpeRatio, 85, env.portfolioInsights⟩

/-- The record with a non-numeric growth rate used as failing input. -/
def badGrowthRecord : CompanyRecord :=
  { emptyRecord with growthRate := some "abc" }

/-- An environment in which no agent's try block throws. -/
def cleanEnv : Env := ⟨false, false, false, false, none, "", "", 0, [], 0, 0, []⟩

/-! ### Orchestrator join (`analyzeStartup`, Stage 2–3)

`Promise.all` semantics: the four task completions arrive in an arbitrary
order (a schedule); the continuation — `synthesizeResults` — runs in the step
in which the last outstanding task resolves, never earlier.  A schedule is an
arbitrary list of completion events; a task's completion is recorded once. -/

inductive AgentId
  | market
  | risk
  | competitive
  | portfolio
deriving DecidableEq

def fourAgents : List AgentId :=
  [AgentId.market, AgentId.risk, AgentId.competitive, AgentId.portfolio]

inductive OEvent
  | extractDone
  | taskDone (a : AgentId)
  | synthStart (completed : List AgentId)
deriving DecidableEq

def allDone (done : List AgentId) : Bool := fourAgents.all (fun b => decide (b ∈ done))

/-- The event trace of the join: each first completion is recorded; when the
fourth task resolves the synthesis event fires, carrying the set of completed
tasks whose outcomes it consumes. -/
def orchSteps : List AgentId → List AgentId → List OEvent
  | _, [] => []
  | done, a :: rest =>
    if a ∈ done then orchSteps done rest
    else if allDone (a :: done) then
      [OEvent.taskDone a, OEvent.synthStart (a :: done)]
    else OEvent.taskDone a :: orchSteps (a :: done) rest

/-- Stage 1 (document extraction) precedes the parallel fan-out. -/
def analyzeStartupTrace (sched : List AgentId) : List OEvent :=
  OEvent.extractDone :: orchSteps [] sched

/-! ### Two concurrent `analyzeStartup` runs on one orchestrator instance

The orchestrator object holds `this.analysisStatus`, a single mutable record
shared by every call on the instance (and returned by reference as
`agentStatus`); each run's `documentData` / task outcomes / synthesized
report are local variables of its own `analyzeStartup` invocation.  A run is
the action sequence: reset all statuses to `processing`; document step; the
four task steps (outcome into a local, status to `completed`); synthesis.
Two runs A and B interleave under an arbitrary schedule of `RunId`s. -/

inductive RunId
  | A
  | B
deriving DecidableEq

inductive StatusKey
  | document
  | market
  | risk
  | competitive
  | portfolio
deriving DecidableEq

inductive AgentStatus
  | pending
  | processing
  | completed
  | failed
deriving DecidableEq

def keyOf : AgentId → StatusKey
  | AgentId.market => StatusKey.market
  | AgentId.risk => StatusKey.risk
  | AgentId.competitive => StatusKey.competitive
  | AgentId.portfolio => StatusKey.portfolio

/-- The run-local variables of one `analyzeStartup` invocation. -/
structure RunLocal (Rec Out Rep : Type) where
  pc : ℕ
  doc : Option Rec
  outs : AgentId → Option Out
  report : Option Rep

def initLocal {Rec Out Rep : Type} : RunLocal Rec Out Rep :=
  ⟨0, none, fun _ => none, none⟩

/-- Which task the run performs at a given program counter. -/
def taskAt : ℕ → Option AgentId
  | 2 => some AgentId.market
  | 3 => some AgentId.risk
  | 4 => some AgentId.competitive
  | 5 => some AgentId.portfolio
  | _ => none

/-- One action of a run on its own locals.  Task outcomes are computed from
the run's own `doc` only — tasks return their outcome by value. -/
def localStep {Inp Rec Out Rep : Type} (extract : Inp → Rec)
    (taskFn : AgentId → Rec → Out) (synthFn : (AgentId → Option Out) → Rep)
    (i : Inp) (l : RunLocal Rec Out Rep) : RunLocal Rec Out Rep :=
  match l.pc with
  | 0 => ⟨1, l.doc, l.outs, l.report⟩
  | 1 => ⟨2, some (extract i), l.outs, l.report⟩
  | 6 => ⟨7, l.doc, l.outs, some (synthFn l.outs)⟩
  | n =>
    match taskAt n with
    | some a => ⟨n + 1, l.doc,
        fun x => if x = a then l.doc.map (taskFn a) else l.outs x, l.report⟩
    | none => l

/-- The same action's effect on the shared `analysisStatus` record:
reset writes every key to `processing`; the document and task steps mark
their key `completed`; synthesis does not touch it. -/
def sharedStep {Rec Out Rep : Type} (l : RunLocal Rec Out Rep)
    (shared : StatusKey → AgentStatus) : StatusKey → AgentStatus :=
  match l.pc with
  | 0 => fun _ => AgentStatus.processing
  | 1 => fun k => if k = StatusKey.document then AgentStatus.completed else shared k
  | n =>
    match taskAt n with
    | some a => fun k => if k = keyOf a then AgentStatus.completed else shared k
    | none => shared

structure OrchState (Rec Out Rep : Type) where
  shared : StatusKey → AgentStatus
  runA : RunLocal Rec Out Rep
  runB : RunLocal Rec Out Rep

def initOrchState {Rec Out Rep : Type} : OrchState Rec Out Rep :=
  ⟨fun _ => AgentStatus.pending, initLocal, initLocal⟩

/-- One interleaving step: the scheduled run performs its next action. -/
def interleaveStep {Inp Rec Out Rep : Type} (extract : Inp → Rec)
    (taskFn : AgentId → Rec → Out) (synthFn : (AgentId → Option Out) → Rep)
    (iA iB : Inp) (s : OrchState Rec Out Rep) (r : RunId) : OrchState Rec Out Rep :=
  match r with
  | RunId.A => ⟨sharedStep s.runA s.shared,
      localStep extract taskFn synthFn iA s.runA, s.runB⟩
  | RunId.B => ⟨sharedStep s.runB s.shared, s.runA,
      localStep extract taskFn synthFn iB s.runB⟩

/-- Execute two interleaved runs from the fresh orchestrator state. -/
def execTwoRuns {Inp Rec Out Rep : Type} (extract : Inp → Rec)
    (taskFn : AgentId → Rec → Out) (synthFn : (AgentId → Option Out) → Rep)
    (iA iB : Inp) (sched : List RunId) : OrchState Rec Out Rep :=
  sched.foldl (interleaveStep extract taskFn synthFn iA iB) initOrchState

/-- The number of steps run `r` gets in a schedule. -/
def countRun (r : RunId) (sched : List RunId) : ℕ :=
  (sched.filter (fun x => x == r)).length

/-- A schedule in which run A performs all 7 of its actions, after which run
B performs only its first action (the `analysisStatus` reset). -/
def schedALThenBReset : List RunId :=
  [RunId.A, RunId.A, RunId.A, RunId.A, RunId.A, RunId.A, RunId.A, RunId.B]

/-- Run A alone, to completion. -/
def schedAAlone : List RunId :=
  [RunId.A, RunId.A, RunId.A, RunId.A, RunId.A, RunId.A, RunId.A]

/-- Concrete instantiation for the shared-status counterexample. -/
def cexExec (sched : List RunId) : OrchState ℕ ℕ ℕ :=
  execTwoRuns (fun i => i) (fun _ d => d) (fun _ => 0) 1 2 sched

/-! ### Concrete inputs used by counterexamples and witnesses -/

/-- Four in-range outcomes on which rounding changes the weighted sum:
market 7.3, risk 5, competitive 6, portfolio 7. -/
def c1Results : AgentResults :=
  ⟨⟨7.3, 80, []⟩, ⟨5, 85, []⟩, ⟨6, 80, []⟩, ⟨7, 85, []⟩⟩

/-- Outcomes with a nonempty insight pool for the C7 witness. -/
def c7Results : AgentResults :=
  ⟨⟨7, 80, [Insight.mk "market-position" 9, Insight.mk "growth" 8]⟩,
    ⟨4, 85, [Insight.mk "prediction" 6, Insight.mk "risk-profile" 6]⟩,
    ⟨6, 80, [Insight.mk "competition" 6, Insight.mk "opportunity" 7]⟩,
    ⟨7, 85, [Insight.mk "fallback" 5]⟩⟩

/-- An environment in which every agent's try block throws. -/
def allFailEnv : Env := ⟨true, true, true, true, none, "", "", 0, [], 0, 0, []⟩

/-! ## Helper lemmas -/

theorem jsRound_eq (q : ℚ) (z : ℤ) (h1 : (z : ℚ) ≤ q + 1/2) (h2 : q + 1/2 < z + 1) :
    jsRound q = (z : ℚ) := by
  unfold jsRound
  rw [Int.floor_eq_iff.mpr ⟨h1, h2⟩]

theorem round1_eq (q : ℚ) (z : ℤ) (h1 : (z : ℚ) ≤ q * 10 + 1/2)
    (h2 : q * 10 + 1/2 < z + 1) : round1 q = (z : ℚ) / 10 := by
  unfold round1
  rw [jsRound_eq (q * 10) z h1 h2]

theorem generateRecommendation_decision (r : AgentResults) :
    (generateRecommendation r).decision = recommendationTier (calculateInvestmentScore r) := by
  simp only [generateRecommendation, recommendationTier]
  split_ifs <;> rfl

theorem insightLE_trans :
    ∀ a b c : Insight, insightLE a b = true → insightLE b c = true → insightLE a c = true := by
  intro a b c hab hbc
  simp only [insightLE, decide_eq_true_eq] at *
  exact le_trans hbc hab

theorem insightLE_total : ∀ a b : Insight, insightLE a b || insightLE b a := by
  intro a b
  simp only [insightLE, Bool.or_eq_true, decide_eq_true_eq]
  exact le_total b.impact a.impact

/-! ## C1 — weighted investment score -/

/-- C1 counterexample: with in-range outcomes (market 7.3, risk 5,
competitive 6, portfolio 7) the synthesizer's investment score is 6.3, while
the claim's plain weighted sum Σ(score × weight) is 6.275 — the code rounds
the weighted sum to one decimal, so the two differ. -/
theorem c1_score_rounding_counterexample :
    calculateInvestmentScore c1Results = 6.3
      ∧ specWeightedScore c1Results = 6.275
      ∧ calculateInvestmentScore c1Results ≠ specWeightedScore c1Results := by
  have hs : specWeightedScore c1Results = 6.275 := by
    norm_num [specWeightedScore, c1Results]
  have hc : calculateInvestmentScore c1Results = 6.3 := by
    have h1 : calculateInvestmentScore c1Results = round1 (251/40) := by
      norm_num [calculateInvestmentScore, c1Results, jsOrQ]
    rw [h1, round1_eq (251/40) 63 (by norm_num) (by norm_num)]
    norm_num
  refine ⟨hc, hs, ?_⟩
  rw [hc, hs]
  norm_num

/-- C1 (amended): for every four AnalysisOutcomes with scores in [1,10], the
investment score equals the claim's weighted sum Σ(score × fixed_weight) —
with risk inverted as `10 - riskScore` — rounded to one decimal
(`Math.round(· * 10) / 10`). -/
theorem c1_weighted_score_amended (r : AgentResults)
    (hm : 1 ≤ r.market.score) (hrk : 1 ≤ r.risk.score)
    (hc : 1 ≤ r.competitive.score) (hp : 1 ≤ r.portfolio.score) :
    calculateInvestmentScore r = round1 (specWeightedScore r) := by
  have h1 : r.market.score ≠ 0 := by intro h; rw [h] at hm; norm_num at hm
  have h2 : r.risk.score ≠ 0 := by intro h; rw [h] at hrk; norm_num at hrk
  have h3 : r.competitive.score ≠ 0 := by intro h; rw [h] at hc; norm_num at hc
  have h4 : r.portfolio.score ≠ 0 := by intro h; rw [h] at hp; norm_num at hp
  unfold calculateInvestmentScore specWeightedScore jsOrQ
  rw [if_neg h1, if_neg h2, if_neg h3, if_neg h4]
  congr 1
  ring

theorem c1_weighted_score_amended_witness :
    calculateInvestmentScore c1Results = round1 (specWeightedScore c1Results) :=
  c1_weighted_score_amended c1Results (by norm_num [c1Results])
    (by norm_num [c1Results]) (by norm_num [c1Results]) (by norm_num [c1Results])

/-! ## C2 — recommendation tier thresholds -/

/-- C2: the recommendation decision is the fixed-threshold tier function of
the weighted investment score; the tier is STRONG_BUY exactly on scores ≥ 8
(so 8.0 itself maps to STRONG_BUY), PROCEED_WITH_CAUTION exactly on
6 ≤ score < 8 (so 7.999 does), and PASS exactly below 6 (so 5.999 does). -/
theorem c2_recommendation_tier :
    (∀ r : AgentResults,
      (generateRecommendation r).decision = recommendationTier (calculateInvestmentScore r))
      ∧ (∀ s : ℚ,
        (recommendationTier s = Decision.STRONG_BUY ↔ 8 ≤ s)
          ∧ (recommendationTier s = Decision.PROCEED_WITH_CAUTION ↔ 6 ≤ s ∧ s < 8)
          ∧ (recommendationTier s = Decision.PASS ↔ s < 6))
      ∧ recommendationTier 8 = Decision.STRONG_BUY
      ∧ recommendationTier 7.999 = Decision.PROCEED_WITH_CAUTION
      ∧ recommendationTier 5.999 = Decision.PASS := by
  refine ⟨generateRecommendation_decision, ?_, ?_, ?_, ?_⟩
  · intro s
    unfold recommendationTier
    split_ifs with h1 h2
    · refine ⟨by simp [h1], ?_, ?_⟩ <;> constructor <;> intro h
      · cases h
      · linarith [h.2]
      · cases h
      · linarith
    · refine ⟨?_, by simp [h2, lt_of_not_ge h1], ?_⟩ <;> constructor <;> intro h
      · cases h
      · exact absurd h h1
      · cases h
      · linarith
    · have h3 := lt_of_not_ge h2
      refine ⟨?_, ?_, by simp [h3]⟩ <;> constructor <;> intro h
      · cases h
      · linarith
      · cases h
      · linarith [h.1]
  · unfold recommendationTier
    rw [if_pos (by norm_num)]
  · unfold recommendationTier
    rw [if_neg (by norm_num), if_pos (by norm_num)]
  · unfold recommendationTier
    rw [if_neg (by norm_num), if_neg (by norm_num)]

/-! ## C10 — report-internal consistency -/

/-- C10: in every synthesized report, applying the fixed tier thresholds to
the report's own investmentScore yields exactly the report's recommendation
decision (both derive from the same deterministic score computation). -/
theorem c10_report_consistency :
    ∀ r : AgentResults,
      recommendationTier (synthesizeResults r).investmentScore
        = (synthesizeResults r).recommendation.decision := by
  intro r
  simp only [synthesizeResults]
  exact (generateRecommendation_decision r).symm

/-! ## C8 — percentile division-by-zero guard -/

/-- C8: for every value/benchmark pair, if either is zero or absent (falsy,
which also covers NaN) the percentile is the neutral constant 50, and the
result is always one of the finitely many table values — never NaN or
Infinity, and no division by zero is reachable. -/
theorem c8_percentile_guard :
    (∀ v b : JSNum, truthyNum v = false ∨ truthyNum b = false →
      calculatePercentile v b = 50)
      ∧ (∀ v b : JSNum,
        calculatePercentile v b ∈ ([15, 25, 40, 50, 60, 75, 85, 95] : List ℚ))
      ∧ calculatePercentile (some 0) (some 100) = 50
      ∧ calculatePercentile (some 100) (some 0) = 50
      ∧ calculatePercentile none (some 100) = 50 := by
  have hguard : ∀ v b : JSNum, truthyNum v = false ∨ truthyNum b = false →
      calculatePercentile v b = 50 := by
    intro v b h
    unfold calculatePercentile
    rcases h with h | h <;> rw [h] <;> simp
  refine ⟨hguard, ?_, ?_, ?_, ?_⟩
  · intro v b
    simp only [calculatePercentile]
    split_ifs <;> simp
  · exact hguard _ _ (Or.inl (by simp [truthyNum]))
  · exact hguard _ _ (Or.inr (by simp [truthyNum]))
  · exact hguard _ _ (Or.inl (by simp [truthyNum]))

theorem c8_percentile_guard_witness :
    calculatePercentile (some 0) (some 5) = 50 :=
  c8_percentile_guard.1 (some 0) (some 5) (Or.inl (by simp [truthyNum]))

/-! ## List and character helper lemmas for the parser theorems -/

theorem takeWhile_all {p : Char → Bool} :
    ∀ l : List Char, (∀ c ∈ l, p c = true) → l.takeWhile p = l := by
  intro l
  induction l with
  | nil => intro _; rfl
  | cons c t ih =>
    intro h
    rw [List.takeWhile_cons, h c (List.mem_cons_self c t)]
    simp [ih (fun x hx => h x (List.mem_cons_of_mem c hx))]

theorem dropWhile_all {p : Char → Bool} :
    ∀ l : List Char, (∀ c ∈ l, p c = true) → l.dropWhile p = [] := by
  intro l
  induction l with
  | nil => intro _; rfl
  | cons c t ih =>
    intro h
    rw [List.dropWhile_cons, h c (List.mem_cons_self c t)]
    simp [ih (fun x hx => h x (List.mem_cons_of_mem c hx))]

theorem takeWhile_none {p : Char → Bool} :
    ∀ l : List Char, (∀ c ∈ l, p c = false) → l.takeWhile p = [] := by
  intro l
  induction l with
  | nil => intro _; rfl
  | cons c t _ =>
    intro h
    rw [List.takeWhile_cons, h c (List.mem_cons_self c t)]
    rfl

theorem hasSubstr_eq_false_of {x : Char} {xs : List Char} :
    ∀ hay : List Char, (∀ c ∈ hay, c ≠ x) → hasSubstr hay (x :: xs) = false := by
  intro hay
  induction hay with
  | nil => intro _; rfl
  | cons c t ih =>
    intro h
    have hcx : (x == c) = false := by
      simp only [beq_eq_false_iff_ne, ne_eq]
      exact fun he => h c (List.mem_cons_self c t) he.symm
    simp only [hasSubstr, List.isPrefixOf, hcx, Bool.false_and, Bool.false_or]
    exact ih (fun y hy => h y (List.mem_cons_of_mem c hy))

theorem asciiLower_digit {c : Char} (h : c.isDigit = true) : asciiLower c = c := by
  unfold asciiLower
  rw [if_neg]
  simp only [Char.isDigit, Bool.and_eq_true, decide_eq_true_eq] at h
  rintro ⟨h1, _⟩
  rw [Char.le_def] at h1
  have h3 : 'A'.val ≤ (57 : UInt32) := UInt32.le_trans h1 h.2
  exact absurd h3 (by decide)

theorem lower_digits_ne {ds : List Char} (h : ∀ c ∈ ds, c.isDigit = true)
    {t : Char} (ht : t.isDigit = false) : ∀ c ∈ ds.map asciiLower, c ≠ t := by
  intro c hc
  obtain ⟨d, hd, rfl⟩ := List.mem_map.mp hc
  rw [asciiLower_digit (h d hd)]
  intro he
  have hdig := h d hd
  rw [he, ht] at hdig
  exact absurd hdig (by simp)

theorem natOfDigits_nil : natOfDigits [] = 0 := rfl

theorem parseFloatCore_digits {ds : List Char} (hne : ds ≠ [])
    (h : ∀ c ∈ ds, c.isDigit = true) : parseFloatCore ds = some ((natOfDigits ds : ℚ)) := by
  simp only [parseFloatCore, takeWhile_all ds h, dropWhile_all ds h]
  rw [if_neg (fun hcon => hne hcon.1)]
  norm_num [natOfDigits_nil]

theorem parseFloatCore_nodigits :
    ∀ cs : List Char, (∀ c ∈ cs, c.isDigit = false) → parseFloatCore cs = none := by
  intro cs h
  cases cs with
  | nil => rfl
  | cons c t =>
    have hc : c.isDigit = false := h c (List.mem_cons_self c t)
    have ht : ∀ x ∈ t, x.isDigit = false := fun x hx => h x (List.mem_cons_of_mem c hx)
    have hfp : (if c = '.' then t.takeWhile Char.isDigit else []) = ([] : List Char) := by
      by_cases hdot : c = '.'
      · simp [hdot, takeWhile_none t ht]
      · simp [hdot]
    simp [parseFloatCore, List.takeWhile_cons, List.dropWhile_cons, hc, hfp]

theorem riskParseNumeric_digits {ds : List Char} (hne : ds ≠ [])
    (h : ∀ c ∈ ds, c.isDigit = true) :
    riskParseNumeric (some (String.mk ds)) = (natOfDigits ds : ℚ) := by
  have hne' : String.mk ds ≠ "" := by
    intro hcon
    exact hne (by simpa using congrArg String.data hcon)
  have hdata : (String.mk ds).toList = ds := rfl
  have hfilter : ds.filter (fun c => c.isDigit || c == '.') = ds :=
    List.filter_eq_self.mpr (fun c hc => by rw [h c hc]; rfl)
  have hcr : hasSubstr (ds.map asciiLower) ['c', 'r'] = false :=
    hasSubstr_eq_false_of _ (lower_digits_ne h (by decide))
  have hl : hasSubstr (ds.map asciiLower) ['l'] = false :=
    hasSubstr_eq_false_of _ (lower_digits_ne h (by decide))
  have hk : hasSubstr (ds.map asciiLower) ['k'] = false :=
    hasSubstr_eq_false_of _ (lower_digits_ne h (by decide))
  simp only [riskParseNumeric, hne', if_false, hdata, hfilter,
    parseFloatCore_digits hne h, Option.getD_some, hcr, hl, hk,
    Bool.false_eq_true]

theorem riskParseNumeric_nodigits (s : String)
    (h : ∀ c ∈ s.toList, c.isDigit = false) : riskParseNumeric (some s) = 0 := by
  by_cases hs : s = ""
  · simp [riskParseNumeric, hs]
  · have hpf : parseFloatCore (s.toList.filter (fun c => c.isDigit || c == '.')) = none :=
      parseFloatCore_nodigits _ (fun c hc => h c (List.mem_filter.mp hc).1)
    simp only [riskParseNumeric, hs, if_false, hpf, Option.getD_none]
    split_ifs <;> norm_num

/-! ## C5 — shared numeric parser -/

/-- C5 counterexample: no parser applies an `M` = ×10⁶ multiplier.
`RiskAssessmentAgent.parseNumeric("$2M")` parses 2 and finds none of its
`cr`/`l`/`k` suffixes, returning 2; `DocumentAgent.parseNumericValue("$2M")`
multiplies by 1000, returning 2000.  Neither equals the claimed 2 000 000. -/
theorem c5_m_suffix_counterexample :
    riskParseNumeric (some "$2M") = 2
      ∧ docParseNumericValue (some "$2M") = 2000
      ∧ riskParseNumeric (some "$2M") ≠ 2000000
      ∧ docParseNumericValue (some "$2M") ≠ 2000000 := by
  refine ⟨?_, ?_, ?_, ?_⟩ <;>
    simp +decide [riskParseNumeric, docParseNumericValue, parseFloatCore,
      hasSubstr, natOfDigits, asciiLower] <;> norm_num

/-- C5 (amended): the shared parser returns 0 for absent input, for the empty
string, and for any string containing no digit (it never throws — it is a
total function); it parses the leading decimal and applies the
case-insensitive suffix multipliers that exist (`cr`, `l`, `k`), so
`parseNumeric("₹14L") = 1 400 000` — but there is no `M`/`B` multiplier, so
`parseNumeric("$2M") = 2`; and on already-numeric (all-digit) strings it
returns exactly the denoted number, hence is idempotent on them. -/
theorem c5_parse_magnitude_amended :
    riskParseNumeric (some "₹14L") = 1400000
      ∧ riskParseNumeric (some "") = 0
      ∧ riskParseNumeric none = 0
      ∧ riskParseNumeric (some "$2M") = 2
      ∧ riskParseNumeric (some "2.5") = 5/2
      ∧ (∀ s : String, (∀ c ∈ s.toList, c.isDigit = false) →
          riskParseNumeric (some s) = 0)
      ∧ (∀ ds : List Char, ds ≠ [] → (∀ c ∈ ds, c.isDigit = true) →
          riskParseNumeric (some (String.mk ds)) = (natOfDigits ds : ℚ)) := by
  refine ⟨?_, ?_, ?_, ?_, ?_, riskParseNumeric_nodigits, fun ds h1 h2 =>
    riskParseNumeric_digits h1 h2⟩ <;>
    simp +decide [riskParseNumeric, parseFloatCore, hasSubstr, natOfDigits,
      asciiLower] <;> norm_num

theorem c5_parse_magnitude_amended_witness :
    riskParseNumeric (some (String.mk ['1', '4'])) = (natOfDigits ['1', '4'] : ℚ) :=
  c5_parse_magnitude_amended.2.2.2.2.2.2 ['1', '4'] (by decide) (by decide)

/-! ## C7 — key-insight consolidation -/

/-- C7: the consolidated key-insight list is obtained from the union
(concatenation) of the four tasks' insight lists by sorting it into
descending impact order and truncating to the top 5: there is a
descending-sorted permutation of the union whose first 5 elements are
exactly the result, and the result has at most 5 entries. -/
theorem c7_key_insights :
    ∀ r : AgentResults,
      ∃ sorted : List Insight,
        sorted.Perm (r.market.insights ++ r.risk.insights
            ++ r.competitive.insights ++ r.portfolio.insights)
          ∧ sorted.Pairwise (fun a b => b.impact ≤ a.impact)
          ∧ extractKeyInsights r = sorted.take 5
          ∧ (extractKeyInsights r).length ≤ 5 := by
  intro r
  refine ⟨(r.market.insights ++ r.risk.insights ++ r.competitive.insights
    ++ r.portfolio.insights).mergeSort insightLE, List.mergeSort_perm _ _, ?_, rfl, ?_⟩
  · exact (List.sorted_mergeSort insightLE_trans insightLE_total _).imp
      (fun h => by simp only [insightLE, decide_eq_true_eq] at h; exact h)
  · exact List.length_take_le 5 _

/-! ## NaN-propagation helper lemmas -/

theorem jadd_none_left (x : JSNum) : jadd none x = none := by cases x <;> rfl

theorem jadd_none_right (x : JSNum) : jadd x none = none := by cases x <;> rfl

theorem jsub_none_right (x : JSNum) : jsub x none = none := by cases x <;> rfl

theorem jmul_none_left (x : JSNum) : jmul none x = none := by cases x <;> rfl

theorem jdiv_none_left (x : JSNum) : jdiv none x = none := by cases x <;> rfl

theorem jmin_none_right (x : JSNum) : jmin x none = none := by cases x <;> rfl

theorem jmax_none_right (x : JSNum) : jmax x none = none := by cases x <;> rfl

theorem jroundN_none : jroundN none = none := rfl

theorem calculateFinalRiskScore_nan (flags : List RedFlag) :
    calculateFinalRiskScore none flags = none := by
  simp only [calculateFinalRiskScore, jdiv_none_left, jsub_none_right,
    jadd_none_left, jmul_none_left, jroundN_none, jmin_none_right, jmax_none_right]

/-! ## C3 — task outcomes stay in range (code bug: risk score can be NaN) -/

/-- C3 failing-input evidence: on the CompanyRecord whose `growthRate` is the
non-numeric string "abc" (all other fields absent), with no step of the risk
agent's try block throwing, `RiskAssessmentAgent.analyze` returns an outcome
whose `riskScore` is NaN (`none`): `parseFloat("abc")` is NaN and NaN passes
unchanged through the weighted feature sum, `Math.min`/`Math.max` clamps and
`Math.round`.  NaN is not a number in [1,10], contradicting the claim. -/
theorem c3_risk_score_nan_on_malformed :
    (riskAnalyze cleanEnv badGrowthRecord).riskScore = none := by
  have hg : parseGrowthRate badGrowthRecord.growthRate = none := by
    simp +decide [badGrowthRecord, emptyRecord, parseGrowthRate, jsParseFloat,
      parseFloatCore, removeFirst, jdiv]
  have hf : (engineerFeatures badGrowthRecord).revenue_growth_rate = none := by
    simp only [engineerFeatures, hg, jdiv_none_left, jmin_none_right]
  have h1 : probabilityScoreOf (engineerFeatures badGrowthRecord) = none := by
    simp only [probabilityScoreOf, hf, jmul_none_left, jadd_none_right, jadd_none_left]
  have h2 : predictProbability badGrowthRecord = none := by
    simp only [predictProbability, h1, jmin_none_right, jmax_none_right,
      jmul_none_left, jroundN_none]
  simp only [riskAnalyze, cleanEnv, Bool.false_eq_true, if_false, h2,
    calculateFinalRiskScore_nan]

/-! ## C4 — fallback outcomes delivered to the synthesizer -/

/-- C4 counterexample: when the market agent's try block throws, the outcome
substituted and delivered is `MarketResearchAgent.getFallbackAnalysis`, whose
insight list is empty — not the claimed single generic insight flagging
degraded analysis (its confidence is also 50, not 60). -/
theorem c4_market_fallback_counterexample :
    marketAnalyze allFailEnv emptyRecord = marketGetFallbackAnalysis
      ∧ marketGetFallbackAnalysis.insights.length = 0
      ∧ marketGetFallbackAnalysis.confidence = 50 := by
  exact ⟨rfl, rfl, rfl⟩

/-- C4 (amended): every outcome delivered to the synthesizer carries a score
and a confidence; when a task's try block throws, the substituted fallback is
the agent's own `getFallbackAnalysis`: the risk, competitive and portfolio
fallbacks have confidence lowered to 60 and exactly one generic insight of
type `fallback`, while the market fallback has confidence 50 and an empty
insight list; all fallback scores are the neutral 5. -/
theorem c4_fallback_outcomes_amended :
    (∀ env rec, env.marketFail = true →
      marketAnalyze env rec = marketGetFallbackAnalysis)
      ∧ (∀ env rec, env.riskFail = true →
        riskAnalyze env rec = riskGetFallbackAnalysis)
      ∧ (∀ env rec, env.competitiveFail = true →
        competitiveAnalyze env rec = competitiveGetFallbackAnalysis)
      ∧ (∀ env rec, env.portfolioFail = true →
        portfolioAnalyze env rec = portfolioGetFallbackAnalysis)
      ∧ riskGetFallbackAnalysis.confidence = 60
      ∧ riskGetFallbackAnalysis.insights = [Insight.mk "fallback" 5]
      ∧ competitiveGetFallbackAnalysis.confidence = 60
      ∧ competitiveGetFallbackAnalysis.insights = [Insight.mk "fallback" 5]
      ∧ portfolioGetFallbackAnalysis.confidence = 60
      ∧ portfolioGetFallbackAnalysis.insights = [Insight.mk "fallback" 5]
      ∧ marketGetFallbackAnalysis.confidence = 50
      ∧ marketGetFallbackAnalysis.insights = []
      ∧ riskGetFallbackAnalysis.riskScore = some 5
      ∧ marketGetFallbackAnalysis.score = 5
      ∧ competitiveGetFallbackAnalysis.score = 5
      ∧ portfolioGetFallbackAnalysis.score = 5 := by
  refine ⟨?_, ?_, ?_, ?_, rfl, rfl, rfl, rfl, rfl, rfl, rfl, rfl, rfl, rfl, rfl, rfl⟩
  · intro env rec h
    simp [marketAnalyze, h]
  · intro env rec h
    simp [riskAnalyze, h]
  · intro env rec h
    simp [competitiveAnalyze, h]
  · intro env rec h
    simp [portfolioAnalyze, h]

theorem c4_fallback_outcomes_amended_witness :
    riskAnalyze allFailEnv emptyRecord = riskGetFallbackAnalysis :=
  c4_fallback_outcomes_amended.2.1 allFailEnv emptyRecord rfl

/-! ## C6 — the synthesizer runs only after all four outcomes -/

theorem allDone_mem {l : List AgentId} (h : allDone l = true) : ∀ a : AgentId, a ∈ l := by
  intro a
  unfold allDone at h
  rw [List.all_eq_true] at h
  have ha : a ∈ fourAgents := by cases a <;> simp [fourAgents]
  exact of_decide_eq_true (h a ha)

theorem orchSteps_synth_after_all :
    ∀ (sched done : List AgentId) (pre post : List OEvent) (d : List AgentId),
      orchSteps done sched = pre ++ OEvent.synthStart d :: post →
      ∀ a : AgentId, (a ∈ done ∨ OEvent.taskDone a ∈ pre) ∧ a ∈ d := by
  intro sched
  induction sched with
  | nil =>
    intro done pre post d h a
    rw [orchSteps] at h
    exact absurd h (by simp)
  | cons x rest ih =>
    intro done pre post d h a
    rw [orchSteps] at h
    by_cases hx : x ∈ done
    · rw [if_pos hx] at h
      exact ih done pre post d h a
    · rw [if_neg hx] at h
      by_cases hall : allDone (x :: done) = true
      · rw [if_pos hall] at h
        cases pre with
        | nil => simp at h
        | cons e pre' =>
          rw [List.cons_append, List.cons_eq_cons] at h
          obtain ⟨he, h2⟩ := h
          cases pre' with
          | nil =>
            simp only [List.nil_append, List.cons_eq_cons] at h2
            have hd : d = x :: done := (OEvent.synthStart.inj h2.1).symm
            have hmem : a ∈ x :: done := allDone_mem hall a
            constructor
            · rcases List.mem_cons.mp hmem with hax | had
              · right
                rw [hax, ← he]
                exact List.mem_singleton.mpr rfl
              · exact Or.inl had
            · rw [hd]
              exact hmem
          | cons e2 pre'' =>
            rw [List.cons_append, List.cons_eq_cons] at h2
            exact absurd h2.2 (by simp)
      · rw [if_neg hall] at h
        cases pre with
        | nil => simp at h
        | cons e pre' =>
          rw [List.cons_append, List.cons_eq_cons] at h
          obtain ⟨he, h2⟩ := h
          have hih := ih (x :: done) pre' post d h2 a
          refine ⟨?_, hih.2⟩
          rcases hih.1 with hmem | hpre
          · rcases List.mem_cons.mp hmem with hax | had
            · right
              rw [hax, ← he]
              exact List.mem_cons_self _ _
            · exact Or.inl had
          · exact Or.inr (List.mem_cons_of_mem e hpre)

/-- C6: in every completion schedule of the parallel fan-out, whenever the
trace invokes the synthesizer, every one of the four tasks' completion events
precedes it, and the outcome set handed to the synthesizer contains all four
tasks — the synthesizer never observes partial results. -/
theorem c6_synthesizer_after_join :
    ∀ (sched : List AgentId) (pre post : List OEvent) (d : List AgentId),
      analyzeStartupTrace sched = pre ++ OEvent.synthStart d :: post →
      ∀ a : AgentId, OEvent.taskDone a ∈ pre ∧ a ∈ d := by
  intro sched pre post d h a
  cases pre with
  | nil =>
    rw [analyzeStartupTrace, List.nil_append] at h
    exact absurd (List.head_eq_of_cons_eq h) (by simp)
  | cons e pre' =>
    rw [analyzeStartupTrace, List.cons_append, List.cons_eq_cons] at h
    obtain ⟨he, h2⟩ := h
    have hih := orchSteps_synth_after_all sched [] pre' post d h2 a
    refine ⟨?_, hih.2⟩
    rcases hih.1 with hmem | hpre
    · exact absurd hmem (List.not_mem_nil a)
    · exact List.mem_cons_of_mem e hpre

theorem c6_synthesizer_after_join_witness :
    OEvent.taskDone AgentId.market ∈
        ([OEvent.extractDone, OEvent.taskDone AgentId.risk,
          OEvent.taskDone AgentId.portfolio, OEvent.taskDone AgentId.market,
          OEvent.taskDone AgentId.competitive] : List OEvent)
      ∧ AgentId.market ∈
        ([AgentId.competitive, AgentId.market, AgentId.portfolio, AgentId.risk] :
          List AgentId) :=
  c6_synthesizer_after_join
    [AgentId.risk, AgentId.portfolio, AgentId.market, AgentId.competitive]
    [OEvent.extractDone, OEvent.taskDone AgentId.risk,
      OEvent.taskDone AgentId.portfolio, OEvent.taskDone AgentId.market,
      OEvent.taskDone AgentId.competitive]
    []
    [AgentId.competitive, AgentId.market, AgentId.portfolio, AgentId.risk]
    (by decide) AgentId.market

/-! ## C9 — concurrent-run isolation -/

theorem interleave_runA (Inp Rec Out Rep : Type) (extract : Inp → Rec)
    (taskFn : AgentId → Rec → Out) (synthFn : (AgentId → Option Out) → Rep)
    (iA iB : Inp) :
    ∀ (sched : List RunId) (s : OrchState Rec Out Rep),
      (sched.foldl (interleaveStep extract taskFn synthFn iA iB) s).runA
        = (localStep extract taskFn synthFn iA)^[countRun RunId.A sched] s.runA := by
  intro sched
  induction sched with
  | nil => intro s; rfl
  | cons r rest ih =>
    intro s
    cases r with
    | A =>
      have hc : countRun RunId.A (RunId.A :: rest) = countRun RunId.A rest + 1 := by
        simp +decide [countRun, List.filter_cons]
      rw [List.foldl_cons, ih, hc, Function.iterate_succ_apply]
      rfl
    | B =>
      have hc : countRun RunId.A (RunId.B :: rest) = countRun RunId.A rest := by
        simp +decide [countRun, List.filter_cons]
      rw [List.foldl_cons, ih, hc]
      rfl

theorem interleave_runB (Inp Rec Out Rep : Type) (extract : Inp → Rec)
    (taskFn : AgentId → Rec → Out) (synthFn : (AgentId → Option Out) → Rep)
    (iA iB : Inp) :
    ∀ (sched : List RunId) (s : OrchState Rec Out Rep),
      (sched.foldl (interleaveStep extract taskFn synthFn iA iB) s).runB
        = (localStep extract taskFn synthFn iB)^[countRun RunId.B sched] s.runB := by
  intro sched
  induction sched with
  | nil => intro s; rfl
  | cons r rest ih =>
    intro s
    cases r with
    | A =>
      have hc : countRun RunId.B (RunId.A :: rest) = countRun RunId.B rest := by
        simp +decide [countRun, List.filter_cons]
      rw [List.foldl_cons, ih, hc]
      rfl
    | B =>
      have hc : countRun RunId.B (RunId.B :: rest) = countRun RunId.B rest + 1 := by
        simp +decide [countRun, List.filter_cons]
      rw [List.foldl_cons, ih, hc, Function.iterate_succ_apply]
      rfl

theorem localRun7_eq (Inp Rec Out Rep : Type) (extract : Inp → Rec)
    (taskFn : AgentId → Rec → Out) (synthFn : (AgentId → Option Out) → Rep)
    (i : Inp) :
    (localStep extract taskFn synthFn i)^[7] (initLocal : RunLocal Rec Out Rep)
      = ⟨7, some (extract i),
          fun x =>
            if x = AgentId.portfolio then some (taskFn AgentId.portfolio (extract i))
            else if x = AgentId.competitive then some (taskFn AgentId.competitive (extract i))
            else if x = AgentId.risk then some (taskFn AgentId.risk (extract i))
            else if x = AgentId.market then some (taskFn AgentId.market (extract i))
            else none,
          some (synthFn (fun x =>
            if x = AgentId.portfolio then some (taskFn AgentId.portfolio (extract i))
            else if x = AgentId.competitive then some (taskFn AgentId.competitive (extract i))
            else if x = AgentId.risk then some (taskFn AgentId.risk (extract i))
            else if x = AgentId.market then some (taskFn AgentId.market (extract i))
            else none))⟩ := by
  have h1 : (localStep extract taskFn synthFn i)^[1] (initLocal : RunLocal Rec Out Rep)
      = ⟨1, none, fun _ => none, none⟩ := rfl
  have h2 : (localStep extract taskFn synthFn i)^[2] (initLocal : RunLocal Rec Out Rep)
      = ⟨2, some (extract i), fun _ => none, none⟩ := by
    rw [Function.iterate_succ_apply', h1]
    rfl
  have h3 : (localStep extract taskFn synthFn i)^[3] (initLocal : RunLocal Rec Out Rep)
      = ⟨3, some (extract i),
          fun x => if x = AgentId.market then some (taskFn AgentId.market (extract i))
            else none, none⟩ := by
    rw [Function.iterate_succ_apply', h2]
    rfl
  have h4 : (localStep extract taskFn synthFn i)^[4] (initLocal : RunLocal Rec Out Rep)
      = ⟨4, some (extract i),
          fun x =>
            if x = AgentId.risk then some (taskFn AgentId.risk (extract i))
            else if x = AgentId.market then some (taskFn AgentId.market (extract i))
            else none, none⟩ := by
    rw [Function.iterate_succ_apply', h3]
    rfl
  have h5 : (localStep extract taskFn synthFn i)^[5] (initLocal : RunLocal Rec Out Rep)
      = ⟨5, some (extract i),
          fun x =>
            if x = AgentId.competitive then some (taskFn AgentId.competitive (extract i))
            else if x = AgentId.risk then some (taskFn AgentId.risk (extract i))
            else if x = AgentId.market then some (taskFn AgentId.market (extract i))
            else none, none⟩ := by
    rw [Function.iterate_succ_apply', h4]
    rfl
  have h6 : (localStep extract taskFn synthFn i)^[6] (initLocal : RunLocal Rec Out Rep)
      = ⟨6, some (extract i),
          fun x =>
            if x = AgentId.portfolio then some (taskFn AgentId.portfolio (extract i))
            else if x = AgentId.competitive then some (taskFn AgentId.competitive (extract i))
            else if x = AgentId.risk then some (taskFn AgentId.risk (extract i))
            else if x = AgentId.market then some (taskFn AgentId.market (extract i))
            else none, none⟩ := by
    rw [Function.iterate_succ_apply', h5]
    rfl
  rw [Function.iterate_succ_apply', h6]
  rfl

theorem localStep_iterate_stable (Inp Rec Out Rep : Type) (extract : Inp → Rec)
    (taskFn : AgentId → Rec → Out) (synthFn : (AgentId → Option Out) → Rep)
    (i : Inp) : ∀ n : ℕ,
      (localStep extract taskFn synthFn i)^[7 + n] (initLocal : RunLocal Rec Out Rep)
        = (localStep extract taskFn synthFn i)^[7] initLocal := by
  intro n
  induction n with
  | zero => rfl
  | succ k ihk =>
    rw [Nat.add_succ, Function.iterate_succ_apply', ihk,
      localRun7_eq Inp Rec Out Rep extract taskFn synthFn i]
    rfl

theorem localRun7_outs (Inp Rec Out Rep : Type) (extract : Inp → Rec)
    (taskFn : AgentId → Rec → Out) (synthFn : (AgentId → Option Out) → Rep)
    (i : Inp) : ∀ a : AgentId,
      ((localStep extract taskFn synthFn i)^[7] (initLocal : RunLocal Rec Out Rep)).outs a
        = some (taskFn a (extract i)) := by
  intro a
  rw [localRun7_eq Inp Rec Out Rep extract taskFn synthFn i]
  cases a <;> rfl

/-- C9 (amended): task outcomes never cross-contaminate — each run's local
state (documentData, the four outcomes, the synthesized report) is a function
of its own input and its own step count only, independent of the other run's
input and of the interleaving; once a run has taken its 7 steps, its outcome
set holds exactly its own four task results computed from its own input.
(The shared `analysisStatus` record is the part that is *not* isolated; see
the counterexample.) -/
theorem c9_outcome_isolation_amended :
    ∀ (Inp Rec Out Rep : Type) (extract : Inp → Rec)
      (taskFn : AgentId → Rec → Out) (synthFn : (AgentId → Option Out) → Rep)
      (iA iA2 iB iB2 : Inp) (sched sched2 : List RunId),
      (countRun RunId.A sched = countRun RunId.A sched2 →
        (execTwoRuns extract taskFn synthFn iA iB sched).runA
          = (execTwoRuns extract taskFn synthFn iA iB2 sched2).runA)
        ∧ (countRun RunId.B sched = countRun RunId.B sched2 →
          (execTwoRuns extract taskFn synthFn iA iB sched).runB
            = (execTwoRuns extract taskFn synthFn iA2 iB sched2).runB)
        ∧ (7 ≤ countRun RunId.A sched → ∀ a : AgentId,
          (execTwoRuns extract taskFn synthFn iA iB sched).runA.outs a
            = some (taskFn a (extract iA)))
        ∧ (7 ≤ countRun RunId.B sched → ∀ a : AgentId,
          (execTwoRuns extract taskFn synthFn iA iB sched).runB.outs a
            = some (taskFn a (extract iB))) := by
  intro Inp Rec Out Rep extract taskFn synthFn iA iA2 iB iB2 sched sched2
  refine ⟨?_, ?_, ?_, ?_⟩
  · intro h
    unfold execTwoRuns
    rw [interleave_runA, interleave_runA, h]
  · intro h
    unfold execTwoRuns
    rw [interleave_runB, interleave_runB, h]
  · intro h a
    unfold execTwoRuns
    rw [interleave_runA]
    have hinit : (initOrchState : OrchState Rec Out Rep).runA = initLocal := rfl
    have hn : countRun RunId.A sched = 7 + (countRun RunId.A sched - 7) := by omega
    rw [hinit, hn, localStep_iterate_stable]
    exact localRun7_outs Inp Rec Out Rep extract taskFn synthFn iA a
  · intro h a
    unfold execTwoRuns
    rw [interleave_runB]
    have hinit : (initOrchState : OrchState Rec Out Rep).runB = initLocal := rfl
    have hn : countRun RunId.B sched = 7 + (countRun RunId.B sched - 7) := by omega
    rw [hinit, hn, localStep_iterate_stable]
    exact localRun7_outs Inp Rec Out Rep extract taskFn synthFn iB a

theorem c9_outcome_isolation_amended_witness :
    (execTwoRuns (fun i : ℕ => i) (fun _ d => d) (fun _ => (0 : ℕ)) 1 2 schedALThenBReset).runA
        = (execTwoRuns (fun i : ℕ => i) (fun _ d => d) (fun _ => (0 : ℕ)) 1 3 schedAAlone).runA
      ∧ (execTwoRuns (fun i : ℕ => i) (fun _ d => d) (fun _ => (0 : ℕ)) 1 2 schedALThenBReset).runA.outs
          AgentId.market = some 1 := by
  have h := c9_outcome_isolation_amended ℕ ℕ ℕ ℕ (fun i => i) (fun _ d => d)
    (fun _ => (0 : ℕ)) 1 1 2 3 schedALThenBReset schedAAlone
  exact ⟨h.1 (by decide), h.2.2.1 (by decide) AgentId.market⟩

/-- C9 counterexample: the orchestrator instance's `analysisStatus` record is
shared mutable state across simultaneous runs — it is returned by reference
as each run's `agentStatus`.  When run A completes all 7 of its actions and
run B then merely performs its status reset, the market entry of the record
run A returned reads `processing`, although with no concurrent run it reads
`completed`: run B's write is visible through run A's returned result. -/
theorem c9_shared_status_counterexample :
    (cexExec schedALThenBReset).shared StatusKey.market = AgentStatus.processing
      ∧ (cexExec schedAAlone).shared StatusKey.market = AgentStatus.completed :=
  ⟨rfl, rfl⟩
